import Mathlib

/-
Verification of the backhand-async extraction pipeline.

The two Rust sources, src/lib.rs (blocking / rayon strategy) and
src/async_unsquash.rs (async / tokio strategy), are shallowly embedded below.
Paths follow Rust std::path semantics (component lists with an absolute flag,
empty and "." components normalized away, join replacing on an absolute
right-hand side).  The destination filesystem is a map from paths to nodes;
the external archive reader collaborator is a value of type ArchiveState
whose readable case carries the entry list, and per-file content streams are
the byte lists stored on file entries (the collaborator contract).  Rust
panics (unimplemented!, .expect) are modelled by the Outcome.panicked
constructor, anyhow errors by Outcome.err.
-/

namespace Backhand

/-- A path as Rust std::path models it: an optional leading root separator
plus the list of normal components (empty and "." components removed, as
Path::components does). -/
structure RustPath where
  absolute : Bool
  comps : List String
deriving DecidableEq

/-- Split a character list at every slash character (helper for
Path::components). -/
def splitSlash : List Char → List (List Char)
  | [] => [[]]
  | c :: rest =>
    if c = '/' then [] :: splitSlash rest
    else
      match splitSlash rest with
      | [] => [[c]]
      | g :: gs => (c :: g) :: gs

/-- Normal components of a path string, as Path::components yields them:
empty components and "." are skipped. -/
def pathComponents (s : String) : List String :=
  ((splitSlash s.data).map (fun cs => String.mk cs)).filter
    (fun c => decide (c ≠ "") && decide (c ≠ "."))

/-- Does the string begin with the root separator? -/
def startsWithSlash (s : String) : Bool :=
  match s.data with
  | '/' :: _ => true
  | _ => false

/-- Rust Path::new on a string. -/
def parsePath (s : String) : RustPath :=
  ⟨startsWithSlash s, pathComponents s⟩

/-- Rust Path::join: an absolute right-hand side replaces the base. -/
def joinPath (base : RustPath) (p : RustPath) : RustPath :=
  if p.absolute then p else ⟨base.absolute, base.comps ++ p.comps⟩

/-- Rust Path::parent: none for the root path "/" and for the empty path. -/
def parentPath (p : RustPath) : Option RustPath :=
  match p.comps with
  | [] => none
  | _ :: _ => some ⟨p.absolute, p.comps.dropLast⟩

/-- path.strip_prefix(Component::RootDir).unwrap_or(path): drop a leading
root separator when there is one. -/
def stripRootDir (p : RustPath) : RustPath :=
  if p.absolute then ⟨false, p.comps⟩ else p

/-- Component lists of Rust Path::ancestors: the path itself, then each
parent in turn, down to the empty list (the root). -/
def ancestorsC (l : List String) : List (List String) :=
  ((List.range (l.length + 1)).map (fun i => l.take i)).reverse

/-- Rust Path::ancestors: the path itself, its parent, ..., the root. -/
def ancestors (p : RustPath) : List RustPath :=
  (ancestorsC p.comps).map (fun c => ⟨p.absolute, c⟩)

/-- backhand InnerNode: the kind tag of one archive entry.  A file entry
carries its declared size and, via the archive reader collaborator, the byte
stream contents; devices carry their device number. -/
inductive InnerNode
  | file (fileSize : Nat) (content : List Nat)
  | symlink (link : String)
  | dir (storedMode : Nat)
  | characterDevice (dev : Nat)
  | blockDevice (dev : Nat)
  | namedPipe
  | socket
deriving DecidableEq

/-- backhand Node: one archive entry, an absolute full path plus kind.
headerMode is the permission metadata stored in the archive, which the
extractor ignores by design. -/
structure Node where
  fullpath : RustPath
  headerMode : Nat
  inner : InnerNode
deriving DecidableEq

/-- One node of the destination tree. -/
inductive FSNode
  | file (content : List Nat) (mode : Nat)
  | dir (mode : Nat)
  | symlink (target : String) (mode : Nat)
deriving DecidableEq

/-- The destination filesystem: a partial map from paths to nodes. -/
abbrev FS := RustPath → Option FSNode

def emptyFS : FS := fun _ => none

def setNode (fs : FS) (p : RustPath) (v : FSNode) : FS :=
  fun q => if q = p then some v else fs q

/-- Result of one call: ok, an anyhow error, or a Rust panic
(unimplemented! / .expect). -/
inductive Outcome
  | ok
  | err (msg : String)
  | panicked (msg : String)
deriving DecidableEq

/-- Mode bits a freshly created directory receives from create_dir_all. -/
def defaultDirMode : Nat := 0o755

/-- std::fs::create_dir_all, processing the chain of prefixes of the target
path from the root down: missing components are created as directories,
existing directories are kept (idempotent), an existing non-directory is an
error that leaves the directories created so far in place. -/
def mkdirSeq (absolute : Bool) (fs : FS) : List (List String) → Outcome × FS
  | [] => (Outcome.ok, fs)
  | q :: rest =>
    match fs ⟨absolute, q⟩ with
    | none => mkdirSeq absolute (setNode fs ⟨absolute, q⟩ (FSNode.dir defaultDirMode)) rest
    | some (FSNode.dir _) => mkdirSeq absolute fs rest
    | some _ => (Outcome.err "create dir", fs)

/-- The nonempty leading component lists of l, shortest first. -/
def prefixesOf (l : List String) : List (List String) :=
  (List.range l.length).map (fun i => l.take (i + 1))

def mkdirAll (fs : FS) (p : RustPath) : Outcome × FS :=
  mkdirSeq p.absolute fs (prefixesOf p.comps)

/-- Platform behaviour of fchmodat with the no-follow flag on a symbolic
link: honoured, a silent no-op, or an ENOTSUP-style error. -/
inductive LchmodPlatform
  | applies
  | noopSuccess
  | errNotSup
deriving DecidableEq

def isSymlinkAt (fs : FS) (p : RustPath) : Bool :=
  match fs p with
  | some (FSNode.symlink _ _) => true
  | _ => false

def setLinkMode (fs : FS) (p : RustPath) (m : Nat) : FS :=
  match fs p with
  | some (FSNode.symlink t _) => setNode fs p (FSNode.symlink t m)
  | _ => fs

/-- src/lib.rs lchmod: ensure the path is a symlink, take its parent and
file name, open the parent directory, then fchmodat with NoFollowSymlink
(mode masked to permission bits), whose result depends on the platform. -/
def lchmod (plat : LchmodPlatform) (fs : FS) (path : RustPath) (mode : Nat) : Outcome × FS :=
  if isSymlinkAt fs path then
    match parentPath path, path.comps.getLast? with
    | some dir, some _ =>
      if dir.comps.isEmpty || (fs dir).isSome then
        match plat with
        | LchmodPlatform.applies => (Outcome.ok, setLinkMode fs path (mode % 4096))
        | LchmodPlatform.noopSuccess => (Outcome.ok, fs)
        | LchmodPlatform.errNotSup => (Outcome.err "fchmodat", fs)
      else (Outcome.err "open dir", fs)
    | none, _ => (Outcome.err "get parent of symlink", fs)
    | _, none => (Outcome.err "get filename of symlink", fs)
  else (Outcome.err "path is not a symlink, cannot lchmod", fs)

/-- The File arm of extract_node(_blocking): File::create (an existing
directory at the destination is an error, an existing file is truncated),
copy all content bytes from the archive reader stream verbatim, then
set_permissions 0o644. -/
def createFileAndCopy (dest : RustPath) (content : List Nat) (fs : FS) : Outcome × FS :=
  match fs dest with
  | some (FSNode.dir _) => (Outcome.err "create file to unpack", fs)
  | _ => (Outcome.ok, setNode fs dest (FSNode.file content 0o644))

/-- The Symlink arm of extract_node_blocking: std::os::unix::fs::symlink
(fails if anything already exists at the destination; the stored target
string is written as is), then lchmod 0o644 on the link itself. -/
def createSymlinkNode (plat : LchmodPlatform) (dest : RustPath) (link : String) (fs : FS) :
    Outcome × FS :=
  match fs dest with
  | some _ => (Outcome.err "symlink file into", fs)
  | none =>
    let fs2 := setNode fs dest (FSNode.symlink link 0o777)
    match lchmod plat fs2 dest 0o644 with
    | (Outcome.ok, fs3) => (Outcome.ok, fs3)
    | (Outcome.err m, fs3) => (Outcome.err m, fs3)
    | (Outcome.panicked m, fs3) => (Outcome.panicked m, fs3)

/-- The Dir arm of extract_node_blocking: create_dir_all on the destination
then set_permissions 0o755. -/
def createDirNode (dest : RustPath) (fs : FS) : Outcome × FS :=
  match mkdirAll fs dest with
  | (Outcome.ok, fs2) => (Outcome.ok, setNode fs2 dest (FSNode.dir 0o755))
  | (Outcome.err m, fs2) => (Outcome.err m, fs2)
  | (Outcome.panicked m, fs2) => (Outcome.panicked m, fs2)

/-- Kind dispatch of src/lib.rs extract_node_blocking: files, symlinks and
directories are materialized; the four special kinds hit unimplemented!()
and panic. -/
def materializeBlocking (plat : LchmodPlatform) (dest : RustPath) (inner : InnerNode)
    (fs : FS) : Outcome × FS :=
  match inner with
  | InnerNode.file _ content => createFileAndCopy dest content fs
  | InnerNode.symlink link => createSymlinkNode plat dest link fs
  | InnerNode.dir _ => createDirNode dest fs
  | InnerNode.characterDevice _ => (Outcome.panicked "not implemented", fs)
  | InnerNode.blockDevice _ => (Outcome.panicked "not implemented", fs)
  | InnerNode.namedPipe => (Outcome.panicked "not implemented", fs)
  | InnerNode.socket => (Outcome.panicked "not implemented", fs)

/-- Kind dispatch of src/async_unsquash.rs extract_node: only files are
materialized; every other kind (symlink, dir, devices, pipe, socket) hits
unimplemented!() and panics. -/
def materializeAsync (dest : RustPath) (inner : InnerNode) (fs : FS) : Outcome × FS :=
  match inner with
  | InnerNode.file _ content => createFileAndCopy dest content fs
  | InnerNode.symlink _ => (Outcome.panicked "not implemented", fs)
  | InnerNode.dir _ => (Outcome.panicked "not implemented", fs)
  | InnerNode.characterDevice _ => (Outcome.panicked "not implemented", fs)
  | InnerNode.blockDevice _ => (Outcome.panicked "not implemented", fs)
  | InnerNode.namedPipe => (Outcome.panicked "not implemented", fs)
  | InnerNode.socket => (Outcome.panicked "not implemented", fs)

/-- Destination path of an entry: destination root joined with the entry
path after stripping its leading root separator. -/
def destPath (root : RustPath) (node : Node) : RustPath :=
  joinPath root (stripRootDir node.fullpath)

/-- src/lib.rs extract_node_blocking: compute the destination path, take its
parent via .expect (panicking when there is none), create_dir_all the
parent chain, then dispatch on the entry kind. -/
def extract_node_blocking (plat : LchmodPlatform) (root : RustPath) (node : Node) (fs : FS) :
    Outcome × FS :=
  match parentPath (destPath root node) with
  | none => (Outcome.panicked "path is guaranteed to contain a parent", fs)
  | some parentDir =>
    match mkdirAll fs parentDir with
    | (Outcome.ok, fs1) => materializeBlocking plat (destPath root node) node.inner fs1
    | (Outcome.err m, fs1) => (Outcome.err m, fs1)
    | (Outcome.panicked m, fs1) => (Outcome.panicked m, fs1)

/-- src/async_unsquash.rs extract_node: identical to the blocking variant up
to the kind dispatch, which supports only files. -/
def extract_node (root : RustPath) (node : Node) (fs : FS) : Outcome × FS :=
  match parentPath (destPath root node) with
  | none => (Outcome.panicked "path is guaranteed to contain a parent", fs)
  | some parentDir =>
    match mkdirAll fs parentDir with
    | (Outcome.ok, fs1) => materializeAsync (destPath root node) node.inner fs1
    | (Outcome.err m, fs1) => (Outcome.err m, fs1)
    | (Outcome.panicked m, fs1) => (Outcome.panicked m, fs1)

/-- The rayon try_for_each over the selected nodes: materialize each in
scheduling order, stopping at the first failure, whose state and error are
returned; remaining nodes are not processed. -/
def runBatch (plat : LchmodPlatform) (root : RustPath) : List Node → FS → Outcome × FS
  | [], fs => (Outcome.ok, fs)
  | node :: rest, fs =>
    match extract_node_blocking plat root node fs with
    | (Outcome.ok, fs1) => runBatch plat root rest fs1
    | (Outcome.err m, fs1) => (Outcome.err m, fs1)
    | (Outcome.panicked m, fs1) => (Outcome.panicked m, fs1)

/-- The FuturesUnordered drain loop with res? : one unit of work per node,
first failure returned, pending units dropped. -/
def runBatchAsync (root : RustPath) : List Node → FS → Outcome × FS
  | [], fs => (Outcome.ok, fs)
  | node :: rest, fs =>
    match extract_node root node fs with
    | (Outcome.ok, fs1) => runBatchAsync root rest fs1
    | (Outcome.err m, fs1) => (Outcome.err m, fs1)
    | (Outcome.panicked m, fs1) => (Outcome.panicked m, fs1)

def indexBase : RustPath := ⟨true, ["index"]⟩

def saltsBase : RustPath := ⟨true, ["salts"]⟩

/-- The filter expansion of unsquash_tpcii_(blocking|async): for each name,
the ancestors of /index/<name> chained with the ancestors of /salts/<name>,
all collected into one set (represented by this list up to membership). -/
def buildFilter (names : List String) : List RustPath :=
  names.flatMap (fun krate =>
    ancestors (joinPath indexBase (parsePath krate)) ++
    ancestors (joinPath saltsBase (parsePath krate)))

/-- The node selection of unsquash_tpcii_(blocking|async):
filesystem.files() filtered by exact membership of the full path in the
expanded filter, or passed through unchanged when no filter was given. -/
def selectNodes (filter : Option (List RustPath)) (files : List Node) : List Node :=
  files.filter (fun node =>
    (filter.map (fun f => decide (node.fullpath ∈ f))).getD true)

/-- crates_filter.as_ref().is_some_and(|f| f.is_empty()) on the expanded
filter. -/
def emptyGuard (filter : Option (List RustPath)) : Bool :=
  (filter.map List.isEmpty).getD false

/-- The archive reader collaborator as seen through the call: the path does
not exist, it exists but opening or decoding fails, or it decodes to an
entry list. -/
inductive ArchiveState
  | missing
  | unreadable (msg : String)
  | readable (files : List Node)

/-- src/lib.rs unsquash_tpcii_blocking: ensure the archive path exists,
expand the name filter, short-circuit with Ok on a present-but-empty
expanded filter, open and decode the archive, select nodes, extract in
parallel with fail-fast error propagation. -/
def unsquash_tpcii_blocking (plat : LchmodPlatform) (arch : ArchiveState) (dest : RustPath)
    (crates_filter : Option (List String)) (fs : FS) : Outcome × FS :=
  match arch with
  | ArchiveState.missing => (Outcome.err "specified squashfs archive does not exist", fs)
  | ArchiveState.unreadable msg =>
    if emptyGuard (crates_filter.map buildFilter) then (Outcome.ok, fs)
    else (Outcome.err msg, fs)
  | ArchiveState.readable files =>
    if emptyGuard (crates_filter.map buildFilter) then (Outcome.ok, fs)
    else runBatch plat dest (selectNodes (crates_filter.map buildFilter) files) fs

/-- src/async_unsquash.rs unsquash_tpcii_async: same pipeline with the
cooperative executor and the files-only extract_node. -/
def unsquash_tpcii_async (arch : ArchiveState) (dest : RustPath)
    (crates_filter : Option (List String)) (fs : FS) : Outcome × FS :=
  match arch with
  | ArchiveState.missing => (Outcome.err "specified squashfs archive does not exist", fs)
  | ArchiveState.unreadable msg =>
    if emptyGuard (crates_filter.map buildFilter) then (Outcome.ok, fs)
    else (Outcome.err msg, fs)
  | ArchiveState.readable files =>
    if emptyGuard (crates_filter.map buildFilter) then (Outcome.ok, fs)
    else runBatchAsync dest (selectNodes (crates_filter.map buildFilter) files) fs

/-- A well-formed logical name for the crate filter: nonempty, not the
current-directory component, and free of path separators. -/
def ValidName (s : String) : Prop :=
  s ≠ "" ∧ s ≠ "." ∧ ('/' ∉ s.data) ∧ startsWithSlash s = false

instance (s : String) : Decidable (ValidName s) := by
  unfold ValidName; infer_instance

def isFileNode (nd : Node) : Bool :=
  match nd.inner with
  | InnerNode.file _ _ => true
  | _ => false

def isSymlinkNode (nd : Node) : Bool :=
  match nd.inner with
  | InnerNode.symlink _ => true
  | _ => false

/-- There is a directory at the path. -/
def DirAt (fs : FS) (p : RustPath) : Prop :=
  ∃ m, fs p = some (FSNode.dir m)

/-- Every nonempty leading portion of the path is a directory. -/
def ChainDirs (fs : FS) (p : RustPath) : Prop :=
  ∀ q ∈ prefixesOf p.comps, DirAt fs ⟨p.absolute, q⟩

theorem setNode_self (fs : FS) (p : RustPath) (v : FSNode) : setNode fs p v p = some v := by
  simp [setNode]

theorem setNode_of_ne (fs : FS) (p : RustPath) (v : FSNode) {q : RustPath} (h : q ≠ p) :
    setNode fs p v q = fs q := by
  simp [setNode, h]

theorem setNode_eq_self {fs : FS} {p : RustPath} {v : FSNode} (h : fs p = some v) :
    setNode fs p v = fs := by
  funext q
  by_cases hq : q = p
  · subst hq; simp [setNode, h]
  · simp [setNode, hq]

theorem mem_prefixesOf {l : List String} {q : List String} :
    q ∈ prefixesOf l ↔ ∃ i, i < l.length ∧ q = l.take (i + 1) := by
  simp [prefixesOf, List.mem_map, List.mem_range, eq_comm]

theorem length_le_of_mem_prefixesOf {l q : List String} (h : q ∈ prefixesOf l) :
    q.length ≤ l.length := by
  rcases mem_prefixesOf.1 h with ⟨i, _, rfl⟩
  simp [List.length_take]

theorem self_mem_prefixesOf {l : List String} (h : l ≠ []) : l ∈ prefixesOf l := by
  rcases List.exists_cons_of_ne_nil h with ⟨a, t, rfl⟩
  refine mem_prefixesOf.2 ⟨t.length, by simp, ?_⟩
  simp [List.take_length]

theorem mem_prefixesOf_of_dropLast {l q : List String} (h : q ∈ prefixesOf l.dropLast) :
    q ∈ prefixesOf l := by
  rcases mem_prefixesOf.1 h with ⟨i, hi, rfl⟩
  have hl : l.dropLast = l.take (l.length - 1) := List.dropLast_eq_take l
  have hlen : l.dropLast.length = l.length - 1 := by simp
  refine mem_prefixesOf.2 ⟨i, ?_, ?_⟩
  · omega
  · rw [hl, List.take_take]
    congr 1
    omega

theorem parentPath_eq_some {p q : RustPath} (h : parentPath p = some q) :
    q.absolute = p.absolute ∧ q.comps = p.comps.dropLast ∧ p.comps ≠ [] := by
  rcases p with ⟨a, comps⟩
  cases comps with
  | nil => simp [parentPath] at h
  | cons x xs =>
    simp [parentPath] at h
    subst h
    simp

theorem parentPath_eq_none {p : RustPath} (h : parentPath p = none) : p.comps = [] := by
  rcases p with ⟨a, comps⟩
  cases comps with
  | nil => rfl
  | cons x xs => simp [parentPath] at h

theorem mkdirSeq_untouched {todo : List (List String)} {absolute : Bool} {fs fs' : FS}
    {o : Outcome} (h : mkdirSeq absolute fs todo = (o, fs')) :
    ∀ q, fs q ≠ none → fs' q = fs q := by
  induction todo generalizing fs with
  | nil =>
    simp only [mkdirSeq, Prod.mk.injEq] at h
    intro q _
    rw [h.2]
  | cons hd rest ih =>
    intro q hq
    simp only [mkdirSeq] at h
    cases hfs : fs ⟨absolute, hd⟩ with
    | none =>
      rw [hfs] at h
      have hne : q ≠ (⟨absolute, hd⟩ : RustPath) := by
        intro he; rw [he, hfs] at hq; exact hq rfl
      have := ih h q (by rw [setNode_of_ne _ _ _ hne]; exact hq)
      rw [this, setNode_of_ne _ _ _ hne]
    | some v =>
      cases v with
      | dir m =>
        rw [hfs] at h
        exact ih h q hq
      | file c m =>
        rw [hfs] at h
        simp only [Prod.mk.injEq] at h
        rw [h.2]
      | symlink t m =>
        rw [hfs] at h
        simp only [Prod.mk.injEq] at h
        rw [h.2]

theorem mkdirSeq_ok_dirs {todo : List (List String)} {absolute : Bool} {fs fs' : FS}
    (h : mkdirSeq absolute fs todo = (Outcome.ok, fs')) :
    ∀ q ∈ todo, DirAt fs' ⟨absolute, q⟩ := by
  induction todo generalizing fs with
  | nil => intro q hq; exact absurd hq (List.not_mem_nil q)
  | cons hd rest ih =>
    intro q hq
    simp only [mkdirSeq] at h
    cases hfs : fs ⟨absolute, hd⟩ with
    | none =>
      rw [hfs] at h
      rcases List.mem_cons.1 hq with rfl | hq2
      · have hset : setNode fs ⟨absolute, q⟩ (FSNode.dir defaultDirMode) ⟨absolute, q⟩
            = some (FSNode.dir defaultDirMode) := setNode_self _ _ _
        have := mkdirSeq_untouched h ⟨absolute, q⟩ (by rw [hset]; exact Option.noConfusion)
        exact ⟨defaultDirMode, by rw [this, hset]⟩
      · exact ih h q hq2
    | some v =>
      cases v with
      | dir m =>
        rw [hfs] at h
        rcases List.mem_cons.1 hq with rfl | hq2
        · have := mkdirSeq_untouched h ⟨absolute, q⟩ (by rw [hfs]; exact Option.noConfusion)
          exact ⟨m, by rw [this, hfs]⟩
        · exact ih h q hq2
      | file c m => rw [hfs] at h; simp at h
      | symlink t m => rw [hfs] at h; simp at h

theorem mkdirSeq_noop {todo : List (List String)} {absolute : Bool} {fs : FS}
    (h : ∀ q ∈ todo, DirAt fs ⟨absolute, q⟩) :
    mkdirSeq absolute fs todo = (Outcome.ok, fs) := by
  induction todo with
  | nil => rfl
  | cons hd rest ih =>
    rcases h hd (List.mem_cons_self hd rest) with ⟨m, hm⟩
    simp only [mkdirSeq, hm]
    exact ih (fun q hq => h q (List.mem_cons_of_mem hd hq))

theorem mkdirAll_untouched {fs fs' : FS} {p : RustPath} {o : Outcome}
    (h : mkdirAll fs p = (o, fs')) : ∀ q, fs q ≠ none → fs' q = fs q :=
  mkdirSeq_untouched h

theorem mkdirAll_ok_chain {fs fs' : FS} {p : RustPath}
    (h : mkdirAll fs p = (Outcome.ok, fs')) : ChainDirs fs' p :=
  fun q hq => mkdirSeq_ok_dirs h q hq

theorem mkdirAll_noop {fs : FS} {p : RustPath} (h : ChainDirs fs p) :
    mkdirAll fs p = (Outcome.ok, fs) :=
  mkdirSeq_noop h

theorem setLinkMode_of_ne {fs : FS} {p q : RustPath} {m : Nat} (h : q ≠ p) :
    setLinkMode fs p m q = fs q := by
  unfold setLinkMode
  cases hfs : fs p with
  | none => rfl
  | some v =>
    cases v with
    | file c mm => rfl
    | dir mm => rfl
    | symlink t mm => exact setNode_of_ne _ _ _ h

theorem lchmod_untouched {plat : LchmodPlatform} {fs fs' : FS} {p : RustPath} {mode : Nat}
    {o : Outcome} (h : lchmod plat fs p mode = (o, fs')) :
    ∀ q, q ≠ p → fs' q = fs q := by
  intro q hq
  unfold lchmod at h
  by_cases hsym : isSymlinkAt fs p
  · rw [if_pos hsym] at h
    cases hpar : parentPath p with
    | none => rw [hpar] at h; simp only [Prod.mk.injEq] at h; rw [h.2]
    | some dir =>
      cases hlast : p.comps.getLast? with
      | none => rw [hpar, hlast] at h; simp only [Prod.mk.injEq] at h; rw [h.2]
      | some nm =>
        rw [hpar, hlast] at h
        dsimp only at h
        by_cases hop : (dir.comps.isEmpty || (fs dir).isSome) = true
        · rw [if_pos hop] at h
          cases plat with
          | applies =>
            simp only [Prod.mk.injEq] at h
            rw [← h.2, setLinkMode_of_ne hq]
          | noopSuccess => simp only [Prod.mk.injEq] at h; rw [h.2]
          | errNotSup => simp only [Prod.mk.injEq] at h; rw [h.2]
        · rw [if_neg hop] at h
          simp only [Prod.mk.injEq] at h; rw [h.2]
  · rw [if_neg hsym] at h
    simp only [Prod.mk.injEq] at h; rw [h.2]

theorem lchmod_ok_symlink_at {plat : LchmodPlatform} {fs fs' : FS} {p : RustPath} {mode : Nat}
    {t : String} {m0 : Nat} (h : lchmod plat fs p mode = (Outcome.ok, fs'))
    (hp : fs p = some (FSNode.symlink t m0)) :
    ∃ m1, fs' p = some (FSNode.symlink t m1) := by
  unfold lchmod at h
  by_cases hsym : isSymlinkAt fs p
  · rw [if_pos hsym] at h
    cases hpar : parentPath p with
    | none => rw [hpar] at h; simp at h
    | some dir =>
      cases hlast : p.comps.getLast? with
      | none => rw [hpar, hlast] at h; simp at h
      | some nm =>
        rw [hpar, hlast] at h
        dsimp only at h
        by_cases hop : (dir.comps.isEmpty || (fs dir).isSome) = true
        · rw [if_pos hop] at h
          cases plat with
          | applies =>
            simp only [Prod.mk.injEq] at h
            refine ⟨mode % 4096, ?_⟩
            rw [← h.2]
            unfold setLinkMode
            rw [hp]
            exact setNode_self _ _ _
          | noopSuccess =>
            simp only [Prod.mk.injEq] at h
            exact ⟨m0, by rw [← h.2]; exact hp⟩
          | errNotSup => simp at h
        · rw [if_neg hop] at h; simp at h
  · rw [if_neg hsym] at h; simp at h

theorem cfc_untouched {dest : RustPath} {content : List Nat} {fs fs' : FS} {o : Outcome}
    (h : createFileAndCopy dest content fs = (o, fs')) :
    ∀ q, q ≠ dest → fs' q = fs q := by
  intro q hq
  unfold createFileAndCopy at h
  cases hfs : fs dest with
  | none =>
    rw [hfs] at h
    simp only [Prod.mk.injEq] at h
    rw [← h.2, setNode_of_ne _ _ _ hq]
  | some v =>
    cases v with
    | file c m =>
      rw [hfs] at h
      simp only [Prod.mk.injEq] at h
      rw [← h.2, setNode_of_ne _ _ _ hq]
    | dir m =>
      rw [hfs] at h
      simp only [Prod.mk.injEq] at h
      rw [h.2]
    | symlink t m =>
      rw [hfs] at h
      simp only [Prod.mk.injEq] at h
      rw [← h.2, setNode_of_ne _ _ _ hq]

theorem cfc_ok_inv {dest : RustPath} {content : List Nat} {fs fs' : FS}
    (h : createFileAndCopy dest content fs = (Outcome.ok, fs')) :
    fs' = setNode fs dest (FSNode.file content 0o644) := by
  unfold createFileAndCopy at h
  cases hfs : fs dest with
  | none => rw [hfs] at h; simp only [Prod.mk.injEq] at h; exact h.2.symm
  | some v =>
    cases v with
    | file c m => rw [hfs] at h; simp only [Prod.mk.injEq] at h; exact h.2.symm
    | dir m => rw [hfs] at h; simp at h
    | symlink t m => rw [hfs] at h; simp only [Prod.mk.injEq] at h; exact h.2.symm

theorem cfc_of_file_at {dest : RustPath} {content c0 : List Nat} {m0 : Nat} {fs : FS}
    (h : fs dest = some (FSNode.file c0 m0)) :
    createFileAndCopy dest content fs = (Outcome.ok, setNode fs dest (FSNode.file content 0o644)) := by
  unfold createFileAndCopy
  rw [h]

theorem cfc_dir_preserved {dest : RustPath} {content : List Nat} {fs fs' : FS} {o : Outcome}
    {q : RustPath} {m : Nat} (h : createFileAndCopy dest content fs = (o, fs'))
    (hq : fs q = some (FSNode.dir m)) : fs' q = some (FSNode.dir m) := by
  by_cases hqd : q = dest
  · subst hqd
    unfold createFileAndCopy at h
    rw [hq] at h
    simp only [Prod.mk.injEq] at h
    rw [← h.2]
    exact hq
  · rw [cfc_untouched h q hqd, hq]

theorem csn_untouched {plat : LchmodPlatform} {dest : RustPath} {link : String} {fs fs' : FS}
    {o : Outcome} (h : createSymlinkNode plat dest link fs = (o, fs')) :
    ∀ q, q ≠ dest → fs' q = fs q := by
  intro q hq
  unfold createSymlinkNode at h
  cases hfs : fs dest with
  | some v =>
    rw [hfs] at h
    simp only [Prod.mk.injEq] at h
    rw [h.2]
  | none =>
    rw [hfs] at h
    simp only [] at h
    cases hlc : lchmod plat (setNode fs dest (FSNode.symlink link 0o777)) dest 0o644 with
    | mk o2 fs3 =>
      rw [hlc] at h
      have hstep : fs3 q = setNode fs dest (FSNode.symlink link 0o777) q :=
        lchmod_untouched hlc q hq
      have hset : setNode fs dest (FSNode.symlink link 0o777) q = fs q :=
        setNode_of_ne _ _ _ hq
      cases o2 with
      | ok =>
        simp only [Prod.mk.injEq] at h
        rw [← h.2, hstep, hset]
      | err m2 =>
        simp only [Prod.mk.injEq] at h
        rw [← h.2, hstep, hset]
      | panicked m2 =>
        simp only [Prod.mk.injEq] at h
        rw [← h.2, hstep, hset]

theorem csn_ok_dest {plat : LchmodPlatform} {dest : RustPath} {link : String} {fs fs' : FS}
    (h : createSymlinkNode plat dest link fs = (Outcome.ok, fs')) :
    ∃ m1, fs' dest = some (FSNode.symlink link m1) := by
  unfold createSymlinkNode at h
  cases hfs : fs dest with
  | some v => rw [hfs] at h; simp at h
  | none =>
    rw [hfs] at h
    simp only [] at h
    cases hlc : lchmod plat (setNode fs dest (FSNode.symlink link 0o777)) dest 0o644 with
    | mk o2 fs3 =>
      rw [hlc] at h
      cases o2 with
      | ok =>
        simp only [Prod.mk.injEq] at h
        have := lchmod_ok_symlink_at hlc (setNode_self fs dest (FSNode.symlink link 0o777))
        rw [h.2] at this
        exact this
      | err m2 => simp at h
      | panicked m2 => simp at h

theorem csn_dir_preserved {plat : LchmodPlatform} {dest : RustPath} {link : String}
    {fs fs' : FS} {o : Outcome} {q : RustPath} {m : Nat}
    (h : createSymlinkNode plat dest link fs = (o, fs'))
    (hq : fs q = some (FSNode.dir m)) : fs' q = some (FSNode.dir m) := by
  by_cases hqd : q = dest
  · subst hqd
    unfold createSymlinkNode at h
    rw [hq] at h
    simp only [Prod.mk.injEq] at h
    rw [← h.2]
    exact hq
  · rw [csn_untouched h q hqd, hq]

theorem cdn_untouched {dest : RustPath} {fs fs' : FS} {o : Outcome}
    (h : createDirNode dest fs = (o, fs')) :
    ∀ q, q ≠ dest → fs q ≠ none → fs' q = fs q := by
  intro q hq hqn
  unfold createDirNode at h
  cases hmk : mkdirAll fs dest with
  | mk o2 fs2 =>
    rw [hmk] at h
    have hun : fs2 q = fs q := mkdirAll_untouched hmk q hqn
    cases o2 with
    | ok =>
      simp only [Prod.mk.injEq] at h
      rw [← h.2, setNode_of_ne _ _ _ hq, hun]
    | err m2 => simp only [Prod.mk.injEq] at h; rw [← h.2, hun]
    | panicked m2 => simp only [Prod.mk.injEq] at h; rw [← h.2, hun]

theorem cdn_ok_dest {dest : RustPath} {fs fs' : FS}
    (h : createDirNode dest fs = (Outcome.ok, fs')) :
    fs' dest = some (FSNode.dir 0o755) := by
  unfold createDirNode at h
  cases hmk : mkdirAll fs dest with
  | mk o2 fs2 =>
    rw [hmk] at h
    cases o2 with
    | ok =>
      simp only [Prod.mk.injEq] at h
      rw [← h.2]
      exact setNode_self _ _ _
    | err m2 => simp at h
    | panicked m2 => simp at h

theorem cdn_dir_preserved {dest : RustPath} {fs fs' : FS} {o : Outcome} {q : RustPath} {m : Nat}
    (h : createDirNode dest fs = (o, fs')) (hq : fs q = some (FSNode.dir m)) :
    ∃ m', fs' q = some (FSNode.dir m') := by
  unfold createDirNode at h
  cases hmk : mkdirAll fs dest with
  | mk o2 fs2 =>
    rw [hmk] at h
    have hun : fs2 q = fs q := mkdirAll_untouched hmk q (by rw [hq]; exact Option.noConfusion)
    cases o2 with
    | ok =>
      simp only [Prod.mk.injEq] at h
      by_cases hqd : q = dest
      · subst hqd
        exact ⟨0o755, by rw [← h.2]; exact setNode_self _ _ _⟩
      · exact ⟨m, by rw [← h.2, setNode_of_ne _ _ _ hqd, hun, hq]⟩
    | err m2 => simp only [Prod.mk.injEq] at h; exact ⟨m, by rw [← h.2, hun, hq]⟩
    | panicked m2 => simp only [Prod.mk.injEq] at h; exact ⟨m, by rw [← h.2, hun, hq]⟩

theorem cdn_noop {dest : RustPath} {fs : FS} (hchain : ChainDirs fs dest)
    (hdest : fs dest = some (FSNode.dir 0o755)) :
    createDirNode dest fs = (Outcome.ok, fs) := by
  unfold createDirNode
  rw [mkdirAll_noop hchain]
  dsimp only
  rw [setNode_eq_self hdest]

theorem matB_untouched {plat : LchmodPlatform} {dest : RustPath} {inner : InnerNode}
    {fs fs' : FS} {o : Outcome} (h : materializeBlocking plat dest inner fs = (o, fs')) :
    ∀ q, q ≠ dest → fs q ≠ none → fs' q = fs q := by
  intro q hq hqn
  cases inner with
  | file sz content => exact cfc_untouched h q hq
  | symlink link => exact csn_untouched h q hq
  | dir m0 => exact cdn_untouched h q hq hqn
  | characterDevice d =>
    simp only [materializeBlocking, Prod.mk.injEq] at h; rw [h.2]
  | blockDevice d =>
    simp only [materializeBlocking, Prod.mk.injEq] at h; rw [h.2]
  | namedPipe =>
    simp only [materializeBlocking, Prod.mk.injEq] at h; rw [h.2]
  | socket =>
    simp only [materializeBlocking, Prod.mk.injEq] at h; rw [h.2]

theorem matB_dir_preserved {plat : LchmodPlatform} {dest : RustPath} {inner : InnerNode}
    {fs fs' : FS} {o : Outcome} {q : RustPath} {m : Nat}
    (h : materializeBlocking plat dest inner fs = (o, fs'))
    (hq : fs q = some (FSNode.dir m)) : ∃ m', fs' q = some (FSNode.dir m') := by
  cases inner with
  | file sz content => exact ⟨m, cfc_dir_preserved h hq⟩
  | symlink link => exact ⟨m, csn_dir_preserved h hq⟩
  | dir m0 => exact cdn_dir_preserved h hq
  | characterDevice d =>
    simp only [materializeBlocking, Prod.mk.injEq] at h; exact ⟨m, by rw [← h.2]; exact hq⟩
  | blockDevice d =>
    simp only [materializeBlocking, Prod.mk.injEq] at h; exact ⟨m, by rw [← h.2]; exact hq⟩
  | namedPipe =>
    simp only [materializeBlocking, Prod.mk.injEq] at h; exact ⟨m, by rw [← h.2]; exact hq⟩
  | socket =>
    simp only [materializeBlocking, Prod.mk.injEq] at h; exact ⟨m, by rw [← h.2]; exact hq⟩

theorem exB_untouched {plat : LchmodPlatform} {root : RustPath} {nd : Node} {fs fs' : FS}
    {o : Outcome} (h : extract_node_blocking plat root nd fs = (o, fs')) :
    ∀ q, q ≠ destPath root nd → fs q ≠ none → fs' q = fs q := by
  intro q hq hqn
  unfold extract_node_blocking at h
  cases hpar : parentPath (destPath root nd) with
  | none =>
    rw [hpar] at h
    simp only [Prod.mk.injEq] at h
    rw [h.2]
  | some parentDir =>
    rw [hpar] at h
    dsimp only at h
    cases hmk : mkdirAll fs parentDir with
    | mk o2 fs1 =>
      rw [hmk] at h
      have hun : fs1 q = fs q := mkdirAll_untouched hmk q hqn
      cases o2 with
      | ok =>
        dsimp only at h
        have := matB_untouched h q hq (by rw [hun]; exact hqn)
        rw [this, hun]
      | err m2 => simp only [Prod.mk.injEq] at h; rw [← h.2, hun]
      | panicked m2 => simp only [Prod.mk.injEq] at h; rw [← h.2, hun]

theorem exB_dir_preserved {plat : LchmodPlatform} {root : RustPath} {nd : Node} {fs fs' : FS}
    {o : Outcome} {q : RustPath} {m : Nat}
    (h : extract_node_blocking plat root nd fs = (o, fs'))
    (hq : fs q = some (FSNode.dir m)) : ∃ m', fs' q = some (FSNode.dir m') := by
  unfold extract_node_blocking at h
  cases hpar : parentPath (destPath root nd) with
  | none =>
    rw [hpar] at h
    simp only [Prod.mk.injEq] at h
    exact ⟨m, by rw [← h.2]; exact hq⟩
  | some parentDir =>
    rw [hpar] at h
    dsimp only at h
    cases hmk : mkdirAll fs parentDir with
    | mk o2 fs1 =>
      rw [hmk] at h
      have hun : fs1 q = fs q := mkdirAll_untouched hmk q (by rw [hq]; exact Option.noConfusion)
      cases o2 with
      | ok =>
        dsimp only at h
        exact matB_dir_preserved h (by rw [hun]; exact hq)
      | err m2 => simp only [Prod.mk.injEq] at h; exact ⟨m, by rw [← h.2, hun]; exact hq⟩
      | panicked m2 => simp only [Prod.mk.injEq] at h; exact ⟨m, by rw [← h.2, hun]; exact hq⟩

theorem runBatch_untouched {plat : LchmodPlatform} {root : RustPath} {l : List Node}
    {fs fs' : FS} {o : Outcome} (h : runBatch plat root l fs = (o, fs')) :
    ∀ q, (∀ nd ∈ l, destPath root nd ≠ q) → fs q ≠ none → fs' q = fs q := by
  induction l generalizing fs with
  | nil =>
    intro q _ _
    simp only [runBatch, Prod.mk.injEq] at h
    rw [h.2]
  | cons nd rest ih =>
    intro q hne hqn
    simp only [runBatch] at h
    cases hx : extract_node_blocking plat root nd fs with
    | mk o1 fs1 =>
      rw [hx] at h
      have hnd : destPath root nd ≠ q := hne nd (List.mem_cons_self nd rest)
      have hun : fs1 q = fs q := exB_untouched hx q (fun he => hnd he.symm) hqn
      cases o1 with
      | ok =>
        dsimp only at h
        have := ih h q (fun nd2 h2 => hne nd2 (List.mem_cons_of_mem nd h2))
          (by rw [hun]; exact hqn)
        rw [this, hun]
      | err m2 => simp only [Prod.mk.injEq] at h; rw [← h.2, hun]
      | panicked m2 => simp only [Prod.mk.injEq] at h; rw [← h.2, hun]

theorem runBatch_dir_preserved {plat : LchmodPlatform} {root : RustPath} {l : List Node}
    {fs fs' : FS} {o : Outcome} {q : RustPath} {m : Nat}
    (h : runBatch plat root l fs = (o, fs')) (hq : fs q = some (FSNode.dir m)) :
    ∃ m', fs' q = some (FSNode.dir m') := by
  induction l generalizing fs m with
  | nil =>
    simp only [runBatch, Prod.mk.injEq] at h
    exact ⟨m, by rw [← h.2]; exact hq⟩
  | cons nd rest ih =>
    simp only [runBatch] at h
    cases hx : extract_node_blocking plat root nd fs with
    | mk o1 fs1 =>
      rw [hx] at h
      rcases exB_dir_preserved hx hq with ⟨m1, hm1⟩
      cases o1 with
      | ok =>
        dsimp only at h
        exact ih h hm1
      | err m2 => simp only [Prod.mk.injEq] at h; exact ⟨m1, by rw [← h.2]; exact hm1⟩
      | panicked m2 => simp only [Prod.mk.injEq] at h; exact ⟨m1, by rw [← h.2]; exact hm1⟩

theorem chainDirs_of_setNode_dest {fs : FS} {par dest : RustPath} {v : FSNode}
    (hpar : parentPath dest = some par) (hchain : ChainDirs fs par) :
    ChainDirs (setNode fs dest v) par := by
  rcases parentPath_eq_some hpar with ⟨habs, hcomps, hne⟩
  intro q hq
  rcases hchain q hq with ⟨m, hm⟩
  have hlen : q.length ≤ par.comps.length := length_le_of_mem_prefixesOf hq
  have hltd : par.comps.length < dest.comps.length := by
    rw [hcomps]
    have := List.length_dropLast dest.comps
    rw [this]
    have : dest.comps.length ≠ 0 := by
      intro h0
      exact hne (List.eq_nil_of_length_eq_zero h0)
    omega
  have hqd : (⟨par.absolute, q⟩ : RustPath) ≠ dest := by
    intro he
    have : q = dest.comps := congrArg RustPath.comps he
    rw [this] at hlen
    omega
  exact ⟨m, by rw [setNode_of_ne _ _ _ hqd]; exact hm⟩

theorem chainDirs_transfer {fs g : FS} {p : RustPath} (hchain : ChainDirs fs p)
    (htr : ∀ q m, fs q = some (FSNode.dir m) → ∃ m', g q = some (FSNode.dir m')) :
    ChainDirs g p := by
  intro q hq
  rcases hchain q hq with ⟨m, hm⟩
  exact htr _ m hm

theorem chainDirs_parent {fs : FS} {par dest : RustPath}
    (hpar : parentPath dest = some par) (hchain : ChainDirs fs dest) : ChainDirs fs par := by
  rcases parentPath_eq_some hpar with ⟨habs, hcomps, _⟩
  intro q hq
  have hq2 : q ∈ prefixesOf dest.comps := by
    rw [hcomps] at hq
    exact mem_prefixesOf_of_dropLast hq
  have := hchain q hq2
  rw [habs]
  exact this

theorem reextract {plat : LchmodPlatform} {root : RustPath} {nd : Node} {fs fs1 g : FS}
    {rest : List Node}
    (hsym : isSymlinkNode nd = false)
    (h1 : extract_node_blocking plat root nd fs = (Outcome.ok, fs1))
    (h2 : runBatch plat root rest fs1 = (Outcome.ok, g))
    (hne : ∀ nd2 ∈ rest, destPath root nd2 ≠ destPath root nd) :
    extract_node_blocking plat root nd g = (Outcome.ok, g) := by
  unfold extract_node_blocking at h1 ⊢
  cases hpar : parentPath (destPath root nd) with
  | none => rw [hpar] at h1; simp at h1
  | some par =>
    rw [hpar] at h1
    dsimp only at h1
    cases hmk : mkdirAll fs par with
    | mk o2 fsm =>
      rw [hmk] at h1
      cases o2 with
      | err m2 => simp at h1
      | panicked m2 => simp at h1
      | ok =>
        dsimp only at h1
        have hchain_par_fsm : ChainDirs fsm par := mkdirAll_ok_chain hmk
        cases hin : nd.inner with
        | symlink link => simp [isSymlinkNode, hin] at hsym
        | characterDevice d =>
          rw [hin] at h1; simp [materializeBlocking] at h1
        | blockDevice d =>
          rw [hin] at h1; simp [materializeBlocking] at h1
        | namedPipe =>
          rw [hin] at h1; simp [materializeBlocking] at h1
        | socket =>
          rw [hin] at h1; simp [materializeBlocking] at h1
        | file sz content =>
          rw [hin] at h1
          dsimp only [materializeBlocking] at h1
          have hfs1 : fs1 = setNode fsm (destPath root nd) (FSNode.file content 0o644) :=
            cfc_ok_inv h1
          have hfs1dest : fs1 (destPath root nd) = some (FSNode.file content 0o644) := by
            rw [hfs1]; exact setNode_self _ _ _
          have hchain_fs1 : ChainDirs fs1 par := by
            rw [hfs1]; exact chainDirs_of_setNode_dest hpar hchain_par_fsm
          have hgdest : g (destPath root nd) = some (FSNode.file content 0o644) := by
            have := runBatch_untouched h2 (destPath root nd) hne
              (by rw [hfs1dest]; exact Option.noConfusion)
            rw [this, hfs1dest]
          have hchain_g : ChainDirs g par :=
            chainDirs_transfer hchain_fs1 (fun q m hm => runBatch_dir_preserved h2 hm)
          dsimp only
          rw [mkdirAll_noop hchain_g]
          dsimp only [materializeBlocking]
          rw [cfc_of_file_at hgdest, setNode_eq_self hgdest]
        | dir m0 =>
          rw [hin] at h1
          dsimp only [materializeBlocking] at h1
          unfold createDirNode at h1
          cases hmk2 : mkdirAll fsm (destPath root nd) with
          | mk o3 fsd =>
            rw [hmk2] at h1
            cases o3 with
            | err m3 => simp at h1
            | panicked m3 => simp at h1
            | ok =>
              dsimp only at h1
              simp only [Prod.mk.injEq] at h1
              have hfs1 : setNode fsd (destPath root nd) (FSNode.dir 0o755) = fs1 := h1.2
              have hchain_dest_fsd : ChainDirs fsd (destPath root nd) := mkdirAll_ok_chain hmk2
              have hfs1dest : fs1 (destPath root nd) = some (FSNode.dir 0o755) := by
                rw [← hfs1]; exact setNode_self _ _ _
              have hchain_dest_fs1 : ChainDirs fs1 (destPath root nd) := by
                intro q hq
                rcases hchain_dest_fsd q hq with ⟨m, hm⟩
                by_cases hqd : (⟨(destPath root nd).absolute, q⟩ : RustPath) = destPath root nd
                · exact ⟨0o755, by rw [hqd, hfs1dest]⟩
                · exact ⟨m, by rw [← hfs1, setNode_of_ne _ _ _ hqd]; exact hm⟩
              have hgdest : g (destPath root nd) = some (FSNode.dir 0o755) := by
                have := runBatch_untouched h2 (destPath root nd) hne
                  (by rw [hfs1dest]; exact Option.noConfusion)
                rw [this, hfs1dest]
              have hchain_dest_g : ChainDirs g (destPath root nd) :=
                chainDirs_transfer hchain_dest_fs1
                  (fun q m hm => runBatch_dir_preserved h2 hm)
              have hchain_par_g : ChainDirs g par := chainDirs_parent hpar hchain_dest_g
              dsimp only
              rw [mkdirAll_noop hchain_par_g]
              dsimp only [materializeBlocking]
              rw [cdn_noop hchain_dest_g hgdest]

theorem runBatch_idem {plat : LchmodPlatform} {root : RustPath} {l : List Node} {fs g : FS}
    (h : runBatch plat root l fs = (Outcome.ok, g))
    (hsym : ∀ nd ∈ l, isSymlinkNode nd = false)
    (hnodup : (l.map (destPath root)).Nodup) :
    runBatch plat root l g = (Outcome.ok, g) := by
  induction l generalizing fs with
  | nil => rfl
  | cons nd rest ih =>
    simp only [runBatch] at h
    cases hx : extract_node_blocking plat root nd fs with
    | mk o1 fs1 =>
      rw [hx] at h
      cases o1 with
      | err m => simp at h
      | panicked m => simp at h
      | ok =>
        dsimp only at h
        have hnodup2 : destPath root nd ∉ rest.map (destPath root) ∧
            (rest.map (destPath root)).Nodup := by
          rw [List.map_cons, List.nodup_cons] at hnodup
          exact hnodup
        have hne : ∀ nd2 ∈ rest, destPath root nd2 ≠ destPath root nd := by
          intro nd2 h2 he
          exact hnodup2.1 (by rw [← he]; exact List.mem_map_of_mem _ h2)
        have hre := reextract (hsym nd (List.mem_cons_self nd rest)) hx h hne
        have hrest := ih h (fun nd2 h2 => hsym nd2 (List.mem_cons_of_mem nd h2))
        simp only [runBatch]
        rw [hre]
        dsimp only
        exact hrest hnodup2.2

theorem stringMk_data (s : String) : String.mk s.data = s := rfl

theorem splitSlash_no_slash {cs : List Char} (h : '/' ∉ cs) : splitSlash cs = [cs] := by
  induction cs with
  | nil => rfl
  | cons c rest ih =>
    have hc : ¬ c = '/' := by
      intro he
      exact h (by rw [← he]; exact List.mem_cons_self c rest)
    have hrest : '/' ∉ rest := fun hm => h (List.mem_cons_of_mem c hm)
    unfold splitSlash
    rw [if_neg hc, ih hrest]

theorem parsePath_valid {s : String} (h : ValidName s) : parsePath s = ⟨false, [s]⟩ := by
  rcases h with ⟨h1, h2, h3, h4⟩
  unfold parsePath pathComponents
  rw [splitSlash_no_slash h3, h4]
  simp [stringMk_data, h1, h2]

theorem cfc_out_dest {dest : RustPath} {content : List Nat} {fs out : FS}
    (h : createFileAndCopy dest content fs = (Outcome.ok, out)) :
    out dest = some (FSNode.file content 0o644) := by
  rw [cfc_ok_inv h]
  exact setNode_self _ _ _

theorem lchmod_noop_of_applies {fs fs' : FS} {p : RustPath} {mode : Nat}
    (h : lchmod LchmodPlatform.applies fs p mode = (Outcome.ok, fs')) :
    lchmod LchmodPlatform.noopSuccess fs p mode = (Outcome.ok, fs) := by
  unfold lchmod at h ⊢
  by_cases hsym : isSymlinkAt fs p = true
  · rw [if_pos hsym] at h ⊢
    cases hpar : parentPath p with
    | none =>
      rw [hpar] at h
      cases hlast : p.comps.getLast? with
      | none => rw [hlast] at h; dsimp only at h; simp at h
      | some nm => rw [hlast] at h; dsimp only at h; simp at h
    | some dir =>
      rw [hpar] at h
      cases hlast : p.comps.getLast? with
      | none => rw [hlast] at h; dsimp only at h; simp at h
      | some nm =>
        rw [hlast] at h
        dsimp only at h ⊢
        by_cases hop : (dir.comps.isEmpty || (fs dir).isSome) = true
        · rw [if_pos hop]
        · rw [if_neg hop] at h; simp at h
  · rw [if_neg hsym] at h; simp at h

theorem runBatch_append_err {plat : LchmodPlatform} {root : RustPath} {l1 : List Node}
    {nd : Node} {l2 : List Node} {fs fs1 fs2 : FS} {m : String}
    (h1 : runBatch plat root l1 fs = (Outcome.ok, fs1))
    (h2 : extract_node_blocking plat root nd fs1 = (Outcome.err m, fs2)) :
    runBatch plat root (l1 ++ nd :: l2) fs = (Outcome.err m, fs2) := by
  induction l1 generalizing fs with
  | nil =>
    simp only [runBatch, Prod.mk.injEq] at h1
    rw [List.nil_append]
    simp only [runBatch]
    rw [h1.2, h2]
  | cons hd tl ih =>
    simp only [runBatch] at h1
    cases hx : extract_node_blocking plat root hd fs with
    | mk o1 fsa =>
      rw [hx] at h1
      cases o1 with
      | err mm => simp at h1
      | panicked mm => simp at h1
      | ok =>
        dsimp only at h1
        rw [List.cons_append]
        simp only [runBatch]
        rw [hx]
        dsimp only
        exact ih h1

theorem runBatchAsync_append_err {root : RustPath} {l1 : List Node}
    {nd : Node} {l2 : List Node} {fs fs1 fs2 : FS} {m : String}
    (h1 : runBatchAsync root l1 fs = (Outcome.ok, fs1))
    (h2 : extract_node root nd fs1 = (Outcome.err m, fs2)) :
    runBatchAsync root (l1 ++ nd :: l2) fs = (Outcome.err m, fs2) := by
  induction l1 generalizing fs with
  | nil =>
    simp only [runBatchAsync, Prod.mk.injEq] at h1
    rw [List.nil_append]
    simp only [runBatchAsync]
    rw [h1.2, h2]
  | cons hd tl ih =>
    simp only [runBatchAsync] at h1
    cases hx : extract_node root hd fs with
    | mk o1 fsa =>
      rw [hx] at h1
      cases o1 with
      | err mm => simp at h1
      | panicked mm => simp at h1
      | ok =>
        dsimp only at h1
        rw [List.cons_append]
        simp only [runBatchAsync]
        rw [hx]
        dsimp only
        exact ih h1

theorem extract_eq_on_file {plat : LchmodPlatform} {root : RustPath} {nd : Node} {fs : FS}
    (hf : isFileNode nd = true) :
    extract_node_blocking plat root nd fs = extract_node root nd fs := by
  unfold extract_node_blocking extract_node
  cases hpar : parentPath (destPath root nd) with
  | none => rfl
  | some par =>
    dsimp only
    cases hmk : mkdirAll fs par with
    | mk o2 fs1 =>
      cases o2 with
      | err m => rfl
      | panicked m => rfl
      | ok =>
        dsimp only
        cases hin : nd.inner with
        | file sz c => rfl
        | symlink l => simp [isFileNode, hin] at hf
        | dir m0 => simp [isFileNode, hin] at hf
        | characterDevice d => simp [isFileNode, hin] at hf
        | blockDevice d => simp [isFileNode, hin] at hf
        | namedPipe => simp [isFileNode, hin] at hf
        | socket => simp [isFileNode, hin] at hf

theorem runBatch_eq_async {plat : LchmodPlatform} {root : RustPath} {l : List Node} {fs : FS}
    (hf : ∀ nd ∈ l, isFileNode nd = true) :
    runBatch plat root l fs = runBatchAsync root l fs := by
  induction l generalizing fs with
  | nil => rfl
  | cons nd rest ih =>
    simp only [runBatch, runBatchAsync]
    rw [← extract_eq_on_file (hf nd (List.mem_cons_self nd rest))]
    cases hx : extract_node_blocking plat root nd fs with
    | mk o fs1 =>
      cases o with
      | ok =>
        dsimp only
        exact ih (fun nd2 h2 => hf nd2 (List.mem_cons_of_mem nd h2))
      | err m => rfl
      | panicked m => rfl

def demoDest : RustPath := ⟨true, ["d"]⟩

def demoFileNode : Node := ⟨⟨true, ["a", "b"]⟩, 0o600, InnerNode.file 3 [1, 2, 3]⟩

def demoDirNode : Node := ⟨⟨true, ["a"]⟩, 0, InnerNode.dir 0o777⟩

def demoSymNode : Node := ⟨⟨true, ["l"]⟩, 0, InnerNode.symlink "target"⟩

def demoFiles : List Node := [demoDirNode, demoFileNode]

def rootEntryNode : Node := ⟨⟨true, []⟩, 0o755, InnerNode.dir 0o755⟩

def conflictFileNode : Node := ⟨⟨true, ["a"]⟩, 0, InnerNode.file 1 [7]⟩

def fsWithDirInWay : FS := setNode emptyFS ⟨true, ["d", "a"]⟩ (FSNode.dir 0o755)

/-- C1: the spec demands that materializing a CharDevice, BlockDevice,
NamedPipe or Socket entry (and, in the concurrent strategy, also Directory
and Symlink) fail fast by returning a typed unsupported-entry-kind error.
The code instead hits unimplemented!() and panics: at each such entry both
extractors produce the panic outcome, not a returned error, so the claim
describes the spec intent and the code diverges from it. -/
theorem claim_c1_unsupported_kinds_panic :
    (extract_node_blocking LchmodPlatform.applies demoDest
        ⟨⟨true, ["c"]⟩, 0, InnerNode.characterDevice 5⟩ emptyFS).fst
      = Outcome.panicked "not implemented" ∧
    (extract_node_blocking LchmodPlatform.applies demoDest
        ⟨⟨true, ["c"]⟩, 0, InnerNode.blockDevice 5⟩ emptyFS).fst
      = Outcome.panicked "not implemented" ∧
    (extract_node_blocking LchmodPlatform.applies demoDest
        ⟨⟨true, ["c"]⟩, 0, InnerNode.namedPipe⟩ emptyFS).fst
      = Outcome.panicked "not implemented" ∧
    (extract_node_blocking LchmodPlatform.applies demoDest
        ⟨⟨true, ["c"]⟩, 0, InnerNode.socket⟩ emptyFS).fst
      = Outcome.panicked "not implemented" ∧
    (extract_node demoDest ⟨⟨true, ["c"]⟩, 0, InnerNode.characterDevice 5⟩ emptyFS).fst
      = Outcome.panicked "not implemented" ∧
    (extract_node demoDest ⟨⟨true, ["c"]⟩, 0, InnerNode.blockDevice 5⟩ emptyFS).fst
      = Outcome.panicked "not implemented" ∧
    (extract_node demoDest ⟨⟨true, ["c"]⟩, 0, InnerNode.namedPipe⟩ emptyFS).fst
      = Outcome.panicked "not implemented" ∧
    (extract_node demoDest ⟨⟨true, ["c"]⟩, 0, InnerNode.socket⟩ emptyFS).fst
      = Outcome.panicked "not implemented" ∧
    (extract_node demoDest ⟨⟨true, ["c"]⟩, 0, InnerNode.dir 0o755⟩ emptyFS).fst
      = Outcome.panicked "not implemented" ∧
    (extract_node demoDest ⟨⟨true, ["c"]⟩, 0, InnerNode.symlink "t"⟩ emptyFS).fst
      = Outcome.panicked "not implemented" := by
  decide

/-- C2 counterexample: the claim quantifies over every archive path, but
with a present-but-empty name filter and a missing archive path both
strategies return the archive-does-not-exist error rather than success,
because the existence check precedes the empty-filter short-circuit. -/
theorem claim_c2_counterexample :
    (unsquash_tpcii_blocking LchmodPlatform.applies ArchiveState.missing demoDest
        (some []) emptyFS).fst ≠ Outcome.ok ∧
    (unsquash_tpcii_async ArchiveState.missing demoDest (some []) emptyFS).fst
      ≠ Outcome.ok := by
  decide

/-- C2 (amended): provided the archive path exists, a present-but-empty name
filter makes both strategies return success immediately with zero filesystem
writes, without opening or decoding the archive — the archive may even be
unreadable or undecodable. -/
theorem claim_c2_empty_filter_noop (plat : LchmodPlatform) (arch : ArchiveState)
    (dest : RustPath) (fs : FS) (h : arch ≠ ArchiveState.missing) :
    unsquash_tpcii_blocking plat arch dest (some []) fs = (Outcome.ok, fs) ∧
    unsquash_tpcii_async arch dest (some []) fs = (Outcome.ok, fs) := by
  cases arch with
  | missing => exact absurd rfl h
  | unreadable msg => exact ⟨rfl, rfl⟩
  | readable files => exact ⟨rfl, rfl⟩

/-- C2 witness: an existing but unreadable archive with an empty name filter
yields success and an untouched destination in both strategies. -/
theorem claim_c2_witness :
    unsquash_tpcii_blocking LchmodPlatform.applies (ArchiveState.unreadable "bad magic")
        demoDest (some []) emptyFS = (Outcome.ok, emptyFS) ∧
    unsquash_tpcii_async (ArchiveState.unreadable "bad magic") demoDest (some []) emptyFS
      = (Outcome.ok, emptyFS) :=
  claim_c2_empty_filter_noop LchmodPlatform.applies (ArchiveState.unreadable "bad magic")
    demoDest emptyFS (fun h => ArchiveState.noConfusion h)

/-- C3: for any set of well-formed logical names, the expanded filter is
exactly the union over the names of the ancestor closures of /index/<name>
and /salts/<name>; in particular for the singleton name set containing foo
it is exactly the five paths /, /index, /index/foo, /salts, /salts/foo. -/
theorem claim_c3_filter_expansion :
    (∀ names : List String, (∀ n ∈ names, ValidName n) → ∀ p : RustPath,
      (p ∈ buildFilter names ↔
        ∃ n ∈ names, p ∈ ancestors ⟨true, ["index", n]⟩ ∨
          p ∈ ancestors ⟨true, ["salts", n]⟩)) ∧
    (∀ p : RustPath, p ∈ buildFilter ["foo"] ↔
      (p = ⟨true, []⟩ ∨ p = ⟨true, ["index"]⟩ ∨ p = ⟨true, ["index", "foo"]⟩ ∨
       p = ⟨true, ["salts"]⟩ ∨ p = ⟨true, ["salts", "foo"]⟩)) := by
  constructor
  · intro names hval p
    unfold buildFilter
    rw [List.mem_flatMap]
    have hidx : ∀ n ∈ names, ancestors (joinPath indexBase (parsePath n))
        = ancestors ⟨true, ["index", n]⟩ := by
      intro n hn
      rw [parsePath_valid (hval n hn)]
      rfl
    have hsal : ∀ n ∈ names, ancestors (joinPath saltsBase (parsePath n))
        = ancestors ⟨true, ["salts", n]⟩ := by
      intro n hn
      rw [parsePath_valid (hval n hn)]
      rfl
    constructor
    · rintro ⟨n, hn, hmem⟩
      rw [hidx n hn, hsal n hn] at hmem
      exact ⟨n, hn, List.mem_append.1 hmem⟩
    · rintro ⟨n, hn, hmem⟩
      refine ⟨n, hn, ?_⟩
      rw [hidx n hn, hsal n hn]
      exact List.mem_append.2 hmem
  · intro p
    have hbf : buildFilter ["foo"] =
        [⟨true, ["index", "foo"]⟩, ⟨true, ["index"]⟩, ⟨true, []⟩,
         ⟨true, ["salts", "foo"]⟩, ⟨true, ["salts"]⟩, ⟨true, []⟩] := by rfl
    rw [hbf]
    simp only [List.mem_cons, List.not_mem_nil, or_false]
    tauto

/-- C3 witness: the names of the singleton filter are valid and the theorem
instantiates at /index/foo. -/
theorem claim_c3_witness :
    (∀ n ∈ ["foo"], ValidName n) ∧
    ((⟨true, ["index", "foo"]⟩ : RustPath) ∈ buildFilter ["foo"]) :=
  ⟨by decide,
   (claim_c3_filter_expansion.1 ["foo"] (by decide) ⟨true, ["index", "foo"]⟩).2
     ⟨"foo", by decide, Or.inl (by decide)⟩⟩

/-- C4: successful materialization of a File entry writes, at the
destination root joined with the root-stripped entry path, a regular file
holding exactly the entry's content bytes with mode 0o644, in both
strategies, whatever permission metadata the archive stored. -/
theorem claim_c4_file_contents :
    (∀ (plat : LchmodPlatform) (root : RustPath) (nd : Node) (sz : Nat)
        (content : List Nat) (fs out : FS),
      nd.inner = InnerNode.file sz content →
      extract_node_blocking plat root nd fs = (Outcome.ok, out) →
      out (destPath root nd) = some (FSNode.file content 0o644)) ∧
    (∀ (root : RustPath) (nd : Node) (sz : Nat) (content : List Nat) (fs out : FS),
      nd.inner = InnerNode.file sz content →
      extract_node root nd fs = (Outcome.ok, out) →
      out (destPath root nd) = some (FSNode.file content 0o644)) := by
  constructor
  · intro plat root nd sz content fs out hin h
    unfold extract_node_blocking at h
    cases hpar : parentPath (destPath root nd) with
    | none => rw [hpar] at h; simp at h
    | some par =>
      rw [hpar] at h
      dsimp only at h
      cases hmk : mkdirAll fs par with
      | mk o2 fs1 =>
        rw [hmk] at h
        cases o2 with
        | err m => simp at h
        | panicked m => simp at h
        | ok =>
          dsimp only at h
          rw [hin] at h
          dsimp only [materializeBlocking] at h
          exact cfc_out_dest h
  · intro root nd sz content fs out hin h
    unfold extract_node at h
    cases hpar : parentPath (destPath root nd) with
    | none => rw [hpar] at h; simp at h
    | some par =>
      rw [hpar] at h
      dsimp only at h
      cases hmk : mkdirAll fs par with
      | mk o2 fs1 =>
        rw [hmk] at h
        cases o2 with
        | err m => simp at h
        | panicked m => simp at h
        | ok =>
          dsimp only at h
          rw [hin] at h
          dsimp only [materializeAsync] at h
          exact cfc_out_dest h

/-- C4 witness: extracting the demo file entry into /d writes /d/a/b with
the three content bytes and mode 0o644. -/
theorem claim_c4_witness :
    (extract_node_blocking LchmodPlatform.applies demoDest demoFileNode emptyFS).snd
      (destPath demoDest demoFileNode) = some (FSNode.file [1, 2, 3] 0o644) := by
  have hfst : (extract_node_blocking LchmodPlatform.applies demoDest demoFileNode
      emptyFS).fst = Outcome.ok := by decide
  have heq : extract_node_blocking LchmodPlatform.applies demoDest demoFileNode emptyFS
      = (Outcome.ok,
        (extract_node_blocking LchmodPlatform.applies demoDest demoFileNode emptyFS).snd) := by
    rw [← hfst]
  exact claim_c4_file_contents.1 LchmodPlatform.applies demoDest demoFileNode 3 [1, 2, 3]
    emptyFS _ rfl heq

/-- C5: with a present filter the node selector yields exactly the
subsequence of entries whose full path is a member of the set, in the
archive-native order, and with an absent filter it yields every entry
unchanged. -/
theorem claim_c5_selection :
    (∀ entries : List Node, selectNodes none entries = entries) ∧
    (∀ (f : List RustPath) (entries : List Node) (nd : Node),
      nd ∈ selectNodes (some f) entries ↔ nd ∈ entries ∧ nd.fullpath ∈ f) ∧
    (∀ (f : List RustPath) (entries : List Node),
      List.Sublist (selectNodes (some f) entries) entries) := by
  refine ⟨?_, ?_, ?_⟩
  · intro entries
    simp [selectNodes]
  · intro f entries nd
    simp [selectNodes, List.mem_filter]
  · intro f entries
    exact List.filter_sublist entries

/-- C6: a Symlink entry materialized by the parallel strategy stores the
target string byte-identically, whatever string it is; and when the
platform chmod on the link is a silent no-op instead of being honoured, the
materialization still succeeds — the no-op is not treated as a failure. -/
theorem claim_c6_symlink_verbatim :
    ∀ (root : RustPath) (nd : Node) (link : String) (fs : FS),
      nd.inner = InnerNode.symlink link →
      ((∀ (plat : LchmodPlatform) (out : FS),
          extract_node_blocking plat root nd fs = (Outcome.ok, out) →
          ∃ m, out (destPath root nd) = some (FSNode.symlink link m)) ∧
       (∀ out : FS,
          extract_node_blocking LchmodPlatform.applies root nd fs = (Outcome.ok, out) →
          (extract_node_blocking LchmodPlatform.noopSuccess root nd fs).fst
            = Outcome.ok)) := by
  intro root nd link fs hin
  constructor
  · intro plat out h
    unfold extract_node_blocking at h
    cases hpar : parentPath (destPath root nd) with
    | none => rw [hpar] at h; simp at h
    | some par =>
      rw [hpar] at h
      dsimp only at h
      cases hmk : mkdirAll fs par with
      | mk o2 fs1 =>
        rw [hmk] at h
        cases o2 with
        | err m => simp at h
        | panicked m => simp at h
        | ok =>
          dsimp only at h
          rw [hin] at h
          dsimp only [materializeBlocking] at h
          exact csn_ok_dest h
  · intro out h
    unfold extract_node_blocking at h ⊢
    cases hpar : parentPath (destPath root nd) with
    | none => rw [hpar] at h; simp at h
    | some par =>
      rw [hpar] at h
      dsimp only at h ⊢
      cases hmk : mkdirAll fs par with
      | mk o2 fs1 =>
        rw [hmk] at h
        cases o2 with
        | err m => simp at h
        | panicked m => simp at h
        | ok =>
          dsimp only at h ⊢
          rw [hin] at h ⊢
          dsimp only [materializeBlocking] at h ⊢
          unfold createSymlinkNode at h ⊢
          cases hd : fs1 (destPath root nd) with
          | some v => rw [hd] at h; simp at h
          | none =>
            rw [hd] at h
            dsimp only at h ⊢
            cases hlc : lchmod LchmodPlatform.applies
                (setNode fs1 (destPath root nd) (FSNode.symlink link 0o777))
                (destPath root nd) 0o644 with
            | mk o3 fs3 =>
              rw [hlc] at h
              cases o3 with
              | err m => simp at h
              | panicked m => simp at h
              | ok =>
                rw [lchmod_noop_of_applies hlc]

/-- C6 witness: the demo symlink entry extracts with its target stored
verbatim, and succeeds on the no-op platform as well. -/
theorem claim_c6_witness :
    (∃ m, (extract_node_blocking LchmodPlatform.applies demoDest demoSymNode emptyFS).snd
        (destPath demoDest demoSymNode) = some (FSNode.symlink "target" m)) ∧
    (extract_node_blocking LchmodPlatform.noopSuccess demoDest demoSymNode emptyFS).fst
      = Outcome.ok := by
  have hfst : (extract_node_blocking LchmodPlatform.applies demoDest demoSymNode
      emptyFS).fst = Outcome.ok := by decide
  have heq : extract_node_blocking LchmodPlatform.applies demoDest demoSymNode emptyFS
      = (Outcome.ok,
        (extract_node_blocking LchmodPlatform.applies demoDest demoSymNode emptyFS).snd) := by
    rw [← hfst]
  exact ⟨(claim_c6_symlink_verbatim demoDest demoSymNode "target" emptyFS rfl).1
           LchmodPlatform.applies _ heq,
         (claim_c6_symlink_verbatim demoDest demoSymNode "target" emptyFS rfl).2 _ heq⟩

/-- C7: in both strategies, when the selected entries split as a prefix that
materializes successfully followed by an entry that fails, the whole call
returns exactly that first error with the filesystem as it stood at the
failure — the remaining scheduled entries are never materialized, nothing
is rolled back and nothing is retried. -/
theorem claim_c7_failfast :
    (∀ (plat : LchmodPlatform) (files : List Node) (dest : RustPath)
        (names : Option (List String)) (fs : FS) (l1 : List Node) (nd : Node)
        (l2 : List Node) (fs1 fs2 : FS) (m : String),
      emptyGuard (names.map buildFilter) = false →
      selectNodes (names.map buildFilter) files = l1 ++ nd :: l2 →
      runBatch plat dest l1 fs = (Outcome.ok, fs1) →
      extract_node_blocking plat dest nd fs1 = (Outcome.err m, fs2) →
      unsquash_tpcii_blocking plat (ArchiveState.readable files) dest names fs
        = (Outcome.err m, fs2)) ∧
    (∀ (files : List Node) (dest : RustPath) (names : Option (List String)) (fs : FS)
        (l1 : List Node) (nd : Node) (l2 : List Node) (fs1 fs2 : FS) (m : String),
      emptyGuard (names.map buildFilter) = false →
      selectNodes (names.map buildFilter) files = l1 ++ nd :: l2 →
      runBatchAsync dest l1 fs = (Outcome.ok, fs1) →
      extract_node dest nd fs1 = (Outcome.err m, fs2) →
      unsquash_tpcii_async (ArchiveState.readable files) dest names fs
        = (Outcome.err m, fs2)) := by
  constructor
  · intro plat files dest names fs l1 nd l2 fs1 fs2 m hguard hsel hrun hex
    unfold unsquash_tpcii_blocking
    dsimp only
    have hcond : ¬ (emptyGuard (names.map buildFilter) = true) := by
      rw [hguard]; exact Bool.false_ne_true
    rw [if_neg hcond, hsel]
    exact runBatch_append_err hrun hex
  · intro files dest names fs l1 nd l2 fs1 fs2 m hguard hsel hrun hex
    unfold unsquash_tpcii_async
    dsimp only
    have hcond : ¬ (emptyGuard (names.map buildFilter) = true) := by
      rw [hguard]; exact Bool.false_ne_true
    rw [if_neg hcond, hsel]
    exact runBatchAsync_append_err hrun hex

/-- C7 witness: with a directory already sitting at the destination file
path, the single-entry batch fails with the file-creation error and the
call returns it, in both strategies. -/
theorem claim_c7_witness :
    unsquash_tpcii_blocking LchmodPlatform.applies (ArchiveState.readable [conflictFileNode])
        demoDest none fsWithDirInWay
      = (Outcome.err "create file to unpack",
         (extract_node_blocking LchmodPlatform.applies demoDest conflictFileNode
           fsWithDirInWay).snd) ∧
    unsquash_tpcii_async (ArchiveState.readable [conflictFileNode]) demoDest none
        fsWithDirInWay
      = (Outcome.err "create file to unpack",
         (extract_node demoDest conflictFileNode fsWithDirInWay).snd) := by
  have hb : (extract_node_blocking LchmodPlatform.applies demoDest conflictFileNode
      fsWithDirInWay).fst = Outcome.err "create file to unpack" := by decide
  have ha : (extract_node demoDest conflictFileNode fsWithDirInWay).fst
      = Outcome.err "create file to unpack" := by decide
  have heb : extract_node_blocking LchmodPlatform.applies demoDest conflictFileNode
      fsWithDirInWay = (Outcome.err "create file to unpack",
        (extract_node_blocking LchmodPlatform.applies demoDest conflictFileNode
          fsWithDirInWay).snd) := by
    rw [← hb]
  have hea : extract_node demoDest conflictFileNode fsWithDirInWay
      = (Outcome.err "create file to unpack",
        (extract_node demoDest conflictFileNode fsWithDirInWay).snd) := by
    rw [← ha]
  exact ⟨claim_c7_failfast.1 LchmodPlatform.applies [conflictFileNode] demoDest none
           fsWithDirInWay [] conflictFileNode [] fsWithDirInWay _ _ rfl rfl rfl heb,
         claim_c7_failfast.2 [conflictFileNode] demoDest none fsWithDirInWay []
           conflictFileNode [] fsWithDirInWay _ _ rfl rfl rfl hea⟩

/-- C8 counterexample: re-running extraction of an archive holding one
symlink entry into the same destination does not succeed the second time:
symlink creation fails with an already-exists error, refuting the claim for
arbitrary archives. -/
theorem claim_c8_counterexample :
    (unsquash_tpcii_blocking LchmodPlatform.applies (ArchiveState.readable [demoSymNode])
        demoDest none emptyFS).fst = Outcome.ok ∧
    (unsquash_tpcii_blocking LchmodPlatform.applies (ArchiveState.readable [demoSymNode])
        demoDest none
        (unsquash_tpcii_blocking LchmodPlatform.applies (ArchiveState.readable [demoSymNode])
          demoDest none emptyFS).snd).fst ≠ Outcome.ok := by
  decide

/-- C8 (amended): when the selected entries contain no symlink and have
pairwise-distinct destination paths (the spec's own invariant for archive
entries), a successful extraction re-run with the same inputs succeeds again
and leaves the destination tree exactly as the first run did: directory
creation is idempotent and files are re-created with the same content and
mode. -/
theorem claim_c8_idempotent :
    ∀ (plat : LchmodPlatform) (files : List Node) (dest : RustPath)
      (names : Option (List String)) (fs g : FS),
      (∀ nd ∈ selectNodes (names.map buildFilter) files, isSymlinkNode nd = false) →
      ((selectNodes (names.map buildFilter) files).map (destPath dest)).Nodup →
      unsquash_tpcii_blocking plat (ArchiveState.readable files) dest names fs
        = (Outcome.ok, g) →
      unsquash_tpcii_blocking plat (ArchiveState.readable files) dest names g
        = (Outcome.ok, g) := by
  intro plat files dest names fs g hsym hnodup h
  unfold unsquash_tpcii_blocking at h ⊢
  dsimp only at h ⊢
  by_cases hg : emptyGuard (names.map buildFilter) = true
  · rw [if_pos hg] at h ⊢
  · rw [if_neg hg] at h ⊢
    exact runBatch_idem h hsym hnodup

/-- C8 witness: a directory entry plus a file entry extract successfully,
and re-running on the resulting tree succeeds and reproduces it exactly. -/
theorem claim_c8_witness :
    unsquash_tpcii_blocking LchmodPlatform.applies (ArchiveState.readable demoFiles)
        demoDest none
        (unsquash_tpcii_blocking LchmodPlatform.applies (ArchiveState.readable demoFiles)
          demoDest none emptyFS).snd
      = (Outcome.ok,
         (unsquash_tpcii_blocking LchmodPlatform.applies (ArchiveState.readable demoFiles)
           demoDest none emptyFS).snd) := by
  have hfst : (unsquash_tpcii_blocking LchmodPlatform.applies (ArchiveState.readable demoFiles)
      demoDest none emptyFS).fst = Outcome.ok := by decide
  have heq : unsquash_tpcii_blocking LchmodPlatform.applies (ArchiveState.readable demoFiles)
      demoDest none emptyFS
      = (Outcome.ok,
        (unsquash_tpcii_blocking LchmodPlatform.applies (ArchiveState.readable demoFiles)
          demoDest none emptyFS).snd) := by
    rw [← hfst]
  exact claim_c8_idempotent LchmodPlatform.applies demoFiles demoDest none emptyFS _
    (by decide) (by decide) heq

/-- C9: the destination-parent .expect cannot fire for an entry whose
root-stripped path is nonempty or whose destination root itself has a
parent; but the archive root entry extracted into the filesystem root makes
both strategies panic with the expect message instead of returning a typed
error. -/
theorem claim_c9_parent_expect :
    (∀ root p : RustPath,
      ((stripRootDir p).comps ≠ [] ∨ parentPath root ≠ none) →
      parentPath (joinPath root (stripRootDir p)) ≠ none) ∧
    extract_node_blocking LchmodPlatform.applies ⟨true, []⟩ rootEntryNode emptyFS
      = (Outcome.panicked "path is guaranteed to contain a parent", emptyFS) ∧
    extract_node ⟨true, []⟩ rootEntryNode emptyFS
      = (Outcome.panicked "path is guaranteed to contain a parent", emptyFS) := by
  refine ⟨?_, rfl, rfl⟩
  intro root p h
  have habs : (stripRootDir p).absolute = false := by
    unfold stripRootDir
    split
    · rfl
    · next hp => simpa using hp
  have hjoin : joinPath root (stripRootDir p)
      = ⟨root.absolute, root.comps ++ (stripRootDir p).comps⟩ := by
    unfold joinPath
    rw [habs]
    simp
  rw [hjoin]
  intro hnone
  have hnil := parentPath_eq_none hnone
  simp only [List.append_eq_nil] at hnil
  rcases h with h1 | h2
  · exact h1 hnil.2
  · refine h2 ?_
    unfold parentPath
    rw [hnil.1]

/-- C9 witness: with a destination root below the filesystem root the parent
always exists, here for the archive root entry path. -/
theorem claim_c9_witness :
    parentPath (joinPath ⟨true, ["out"]⟩ (stripRootDir ⟨true, []⟩)) ≠ none :=
  claim_c9_parent_expect.1 ⟨true, ["out"]⟩ ⟨true, []⟩ (Or.inr (by decide))

/-- C10: when every selected entry is a File, the blocking and the async
extraction agree exactly: same archive, destination and filter produce the
same selection, the same writes and the same outcome. -/
theorem claim_c10_strategies_agree :
    ∀ (plat : LchmodPlatform) (files : List Node) (dest : RustPath)
      (names : Option (List String)) (fs : FS),
      (∀ nd ∈ selectNodes (names.map buildFilter) files, isFileNode nd = true) →
      unsquash_tpcii_blocking plat (ArchiveState.readable files) dest names fs
        = unsquash_tpcii_async (ArchiveState.readable files) dest names fs := by
  intro plat files dest names fs hf
  unfold unsquash_tpcii_blocking unsquash_tpcii_async
  dsimp only
  by_cases hg : emptyGuard (names.map buildFilter) = true
  · rw [if_pos hg, if_pos hg]
  · rw [if_neg hg, if_neg hg]
    exact runBatch_eq_async hf

/-- C10 witness: with an archive of one file entry and no filter, the two
strategies produce identical results. -/
theorem claim_c10_witness :
    unsquash_tpcii_blocking LchmodPlatform.applies (ArchiveState.readable [demoFileNode])
        demoDest none emptyFS
      = unsquash_tpcii_async (ArchiveState.readable [demoFileNode]) demoDest none emptyFS :=
  claim_c10_strategies_agree LchmodPlatform.applies [demoFileNode] demoDest none emptyFS
    (by decide)

end Backhand
